import Mathlib

/-!
Verification of the `PullUpdatePush` batch pipeline of
`relevanceai/operations_new/ops_run.py`, via a shallow embedding of its
pure core: field suppression (`_postprocess`), batch sizing
(`_get_optimal_batch_size`), queue capacity selection (`__init__`),
batch collection for the update and push stages, failed-document
handling, and the early-return guard of `run`.
-/

set_option maxHeartbeats 1000000

namespace OpsRun

/-- A record, as a Python dict: an ordered association list from field
names to values (values modelled as strings). -/
abbrev Rec := List (String × String)

/-- The field names of a record, as taken by `set(document.keys())` in
`_update` (membership is all that is used of the set). -/
def recKeys (r : Rec) : List String := r.map Prod.fst

/-- Value lookup `document[key]`, `none` when the key is absent. -/
def lookupField (r : Rec) (k : String) : Option String :=
  List.lookup k r

/-- `document["_id"]`. -/
def getId (r : Rec) : Option String := lookupField r "_id"

/-- The keep-condition of `_postprocess`:
`key not in old_keys[idx] or key == "_id"`. -/
def keepField (oldKeys : List String) (kv : String × String) : Bool :=
  decide (kv.1 ∉ oldKeys) || decide (kv.1 = "_id")

/-- The per-record dict comprehension inside `_postprocess`. -/
def postprocessRec (oldKeys : List String) (doc : Rec) : Rec :=
  doc.filter (keepField oldKeys)

/-- `PullUpdatePush._postprocess`: for `idx in range(len(new_batch))`,
keep in record `idx` the pairs whose key is not in `old_keys[idx]`, or
whose key is `"_id"`.  Indexing `old_keys[idx]` raises when `old_keys`
is shorter than `new_batch`, modelled by `none`. -/
def postprocess (newBatch : List Rec) (oldKeys : List (List String)) :
    Option (List Rec) :=
  if newBatch.length ≤ oldKeys.length then
    some (List.zipWith postprocessRec oldKeys newBatch)
  else none

/-- The keep-condition under the claim wording: a field is removed only
when its name was in the original snapshot AND its value is unchanged
from the original; `_id` is always kept. -/
def keepFieldClaim (oldDoc : Rec) (kv : String × String) : Bool :=
  decide (¬ (kv.1 ∈ recKeys oldDoc ∧ lookupField oldDoc kv.1 = some kv.2)) ||
    decide (kv.1 = "_id")

/-- Per-record suppression under the claim wording (value aware). -/
def postprocessClaimRec (oldDoc : Rec) (doc : Rec) : Rec :=
  doc.filter (keepFieldClaim oldDoc)

/-- Field suppression as the claim words it, for comparison with
`postprocess`: removes exactly the fields whose name was in the
original record and whose value is unchanged there. -/
def postprocessClaim (newBatch : List Rec) (oldBatch : List Rec) :
    Option (List Rec) :=
  if newBatch.length ≤ oldBatch.length then
    some (List.zipWith postprocessClaimRec oldBatch newBatch)
  else none

lemma mem_postprocessRec (oldKeys : List String) (doc : Rec)
    (kv : String × String) :
    kv ∈ postprocessRec oldKeys doc ↔
      kv ∈ doc ∧ (kv.1 ∉ oldKeys ∨ kv.1 = "_id") := by
  simp [postprocessRec, keepField, List.mem_filter]

lemma getD_zipWith {α β γ : Type} (f : α → β → γ) (da : α) (db : β) (dc : γ) :
    ∀ (as : List α) (bs : List β) (i : ℕ), i < as.length → i < bs.length →
      (List.zipWith f as bs).getD i dc = f (as.getD i da) (bs.getD i db) := by
  intro as
  induction as with
  | nil => intro bs i h _; simp at h
  | cons a as ih =>
    intro bs i ha hb
    cases bs with
    | nil => simp at hb
    | cons b bs =>
      cases i with
      | zero => simp
      | succ n =>
        simp only [List.zipWith_cons_cons, List.getD_cons_succ]
        exact ih bs n (by simpa using ha) (by simpa using hb)

lemma postprocessRec_idem (oldKeys : List String) (doc : Rec) :
    postprocessRec oldKeys (postprocessRec oldKeys doc) =
      postprocessRec oldKeys doc := by
  unfold postprocessRec
  exact List.filter_eq_self.2 (fun kv hkv => List.of_mem_filter hkv)

lemma zipWith_postprocessRec_idem :
    ∀ (ks : List (List String)) (bs : List Rec),
      List.zipWith postprocessRec ks (List.zipWith postprocessRec ks bs) =
        List.zipWith postprocessRec ks bs := by
  intro ks
  induction ks with
  | nil => intro bs; simp
  | cons k ks ih =>
    intro bs
    cases bs with
    | nil => simp
    | cons b bs =>
      simp only [List.zipWith_cons_cons, postprocessRec_idem, ih]

/-- Claim C1: the field-suppression step removes from each output
record exactly those fields whose name was present in that record's
original key snapshot — except the identifier `"_id"`, which is always
preserved.  (Amended: the value of the field is NOT compared; removal
is by name alone.) -/
theorem postprocess_removes_by_name (newBatch : List Rec)
    (oldKeys : List (List String)) (h : newBatch.length ≤ oldKeys.length) :
    ∃ out, postprocess newBatch oldKeys = some out ∧
      out.length = newBatch.length ∧
      ∀ i, i < newBatch.length → ∀ kv : String × String,
        (kv ∈ out.getD i [] ↔
          kv ∈ newBatch.getD i [] ∧
            (kv.1 ∉ oldKeys.getD i [] ∨ kv.1 = "_id")) := by
  refine ⟨List.zipWith postprocessRec oldKeys newBatch, ?_, ?_, ?_⟩
  · simp [postprocess, h]
  · simp [List.length_zipWith]
    omega
  · intro i hi kv
    rw [getD_zipWith postprocessRec [] ([] : Rec) ([] : Rec) oldKeys newBatch i
      (lt_of_lt_of_le hi h) hi]
    exact mem_postprocessRec _ _ kv

/-- Claim C1, counterexample to the claim as stated: with an original
record `{_id: x, a: 1}` and transform output `{_id: x, a: 2}`, the
field `a` has a CHANGED value, so under the claim it must be kept; the
code removes it anyway (suppression is by name only, value-blind). -/
theorem postprocess_value_blind :
    postprocess [[("_id", "x"), ("a", "2")]]
        [recKeys [("_id", "x"), ("a", "1")]] = some [[("_id", "x")]] ∧
    postprocessClaim [[("_id", "x"), ("a", "2")]]
        [[("_id", "x"), ("a", "1")]] = some [[("_id", "x"), ("a", "2")]] ∧
    ([[("_id", "x")]] : List Rec) ≠ [[("_id", "x"), ("a", "2")]] := by
  refine ⟨?_, ?_, ?_⟩ <;> decide

/-- Witness for the C1 theorem at a concrete input. -/
theorem postprocess_removes_by_name_witness :
    ∃ out,
      postprocess [[("_id", "x"), ("a", "2"), ("b", "3")]] [["a", "_id"]] =
        some out ∧
      out.length = 1 ∧
      ∀ i, i < 1 → ∀ kv : String × String,
        (kv ∈ out.getD i [] ↔
          kv ∈ ([[("_id", "x"), ("a", "2"), ("b", "3")]] :
              List Rec).getD i [] ∧
            (kv.1 ∉ ([["a", "_id"]] :
              List (List String)).getD i [] ∨ kv.1 = "_id")) :=
  postprocess_removes_by_name [[("_id", "x"), ("a", "2"), ("b", "3")]]
    [["a", "_id"]] (by decide)

/-- Claim C7: field suppression is idempotent — applying
`_postprocess` to an already-postprocessed batch against the same
snapshots changes nothing. -/
theorem postprocess_idem (b : List Rec) (ks : List (List String))
    (b' : List Rec) (h : postprocess b ks = some b') :
    postprocess b' ks = some b' := by
  unfold postprocess at h
  by_cases hle : b.length ≤ ks.length
  · rw [if_pos hle] at h
    have hb' : b' = List.zipWith postprocessRec ks b := by
      exact (Option.some.injEq _ _ ▸ h).symm
    have hlen : b'.length ≤ ks.length := by
      rw [hb', List.length_zipWith]
      omega
    unfold postprocess
    rw [if_pos hlen, hb', zipWith_postprocessRec_idem]
  · rw [if_neg hle] at h
    exact absurd h (by simp)

/-- Witness for the C7 theorem at a concrete input. -/
theorem postprocess_idem_witness :
    postprocess [[("_id", "x")]] [["a"]] = some [[("_id", "x")]] :=
  postprocess_idem [[("_id", "x"), ("a", "1")]] [["a"]] [[("_id", "x")]]
    (by decide)

/-- Truncation of the Python `int()` builtin on a nonnegative-or-negative
rational: toward zero. -/
def pyInt (q : ℚ) : ℤ := if 0 ≤ q then q.floor else -((-q).floor)

lemma ratFloor_eq_intFloor (q : ℚ) : q.floor = ⌊q⌋ := by
  rw [Rat.floor_def' q, Rat.floor_def]

lemma pyInt_eq_floor (q : ℚ) (h : 0 ≤ q) : pyInt q = ⌊q⌋ := by
  rw [pyInt, if_pos h, ratFloor_eq_intFloor]

lemma pyInt_intCast (n : ℤ) : pyInt (n : ℚ) = n := by
  rcases le_or_lt 0 n with h | h
  · rw [pyInt_eq_floor _ (by exact_mod_cast h), Int.floor_intCast]
  · have hq : ¬ (0 : ℚ) ≤ (n : ℚ) := by
      rw [not_le]
      exact_mod_cast h
    rw [pyInt, if_neg hq]
    have hneg : -((n : ℤ) : ℚ) = ((-n : ℤ) : ℚ) := by push_cast; ring
    rw [hneg, ratFloor_eq_intFloor, Int.floor_intCast, neg_neg]

/-- `PullUpdatePush._get_optimal_batch_size` composed with
`_get_average_document_size`, over the byte sizes of the sampled
documents (the sizes that `getsizeof` reports).  The average is
`sum / len` (ZeroDivisionError on an empty sample, modelled `none`);
the average in MB divides the configured `upload.target_chunk_mb`
(ZeroDivisionError on a zero average, modelled `none`); the truncated
quotient is clamped above by `upload.max_chunk_size`.  Exactly:
`min (floor (targetChunkMB / (sum / len / 2^20))) maxChunkSize`. -/
def getOptimalBatchSize (targetChunkMB maxChunkSize : ℕ) (sizes : List ℕ) :
    Option ℕ :=
  if sizes.length = 0 ∨ sizes.sum = 0 then none
  else some (min ((targetChunkMB * 2 ^ 20 * sizes.length) / sizes.sum)
    maxChunkSize)

/-- Claim C2 (amended): for a sample with positive total size the batch
sizer returns a value that is at most the configured maximum — but not
necessarily at least 1 — and for a sample whose average size is zero it
raises a `ZeroDivisionError` (modelled `none`) instead of returning the
configured maximum. -/
theorem getOptimalBatchSize_le_max (t m : ℕ) (sizes : List ℕ) :
    (sizes.sum ≠ 0 →
      ∃ bs, getOptimalBatchSize t m sizes = some bs ∧ bs ≤ m) ∧
    (sizes.sum = 0 → getOptimalBatchSize t m sizes = none) := by
  constructor
  · intro hsum
    have hlen : sizes.length ≠ 0 := by
      intro h0
      rw [List.length_eq_zero] at h0
      subst h0
      simp at hsum
    refine ⟨min ((t * 2 ^ 20 * sizes.length) / sizes.sum) m, ?_,
      min_le_right _ _⟩
    rw [getOptimalBatchSize, if_neg (by tauto)]
  · intro hsum
    rw [getOptimalBatchSize, if_pos (Or.inr hsum)]

/-- Witness for the C2 theorem at a concrete input. -/
theorem getOptimalBatchSize_le_max_witness :
    ∃ bs, getOptimalBatchSize 20 3000 [100, 300] = some bs ∧ bs ≤ 3000 :=
  (getOptimalBatchSize_le_max 20 3000 [100, 300]).1 (by decide)

/-- Claim C2, counterexample to the claim as stated: a single sampled
document of 21 MiB with a 20 MB target gives batch size 0, violating
the claimed lower bound of 1; and a sample with average size 0 gives a
division error (`none`), not the configured maximum 3000. -/
theorem getOptimalBatchSize_zero :
    getOptimalBatchSize 20 3000 [22020096] = some 0 ∧ ¬ (1 ≤ (0 : ℕ)) ∧
    getOptimalBatchSize 20 3000 [0] = none ∧
    getOptimalBatchSize 20 3000 [0] ≠ some 3000 := by
  refine ⟨by decide, by decide, by decide, by decide⟩

/-- The memory-derived total queue capacity of `PullUpdatePush.__init__`
(`buffer_size == 0` branch): `int(ram_size * ram_ratio / max_document_size)`
where `max_document_size = min(average_size, 2**20)` and `average_size`
is `sum / len` of the sampled document sizes (ZeroDivisionError on an
empty sample or a zero average, modelled `none`). -/
def derivedQueueCapacity (ramSize : ℕ) (frac : ℚ) (sampleSizes : List ℕ) :
    Option ℤ :=
  if sampleSizes.length = 0 then none
  else if min ((sampleSizes.sum : ℚ) / (sampleSizes.length : ℚ)) (2 ^ 20)
      = 0 then none
  else some (pyInt ((ramSize : ℚ) * frac /
    min ((sampleSizes.sum : ℚ) / (sampleSizes.length : ℚ)) (2 ^ 20)))

/-- The total queue capacity of `PullUpdatePush.__init__` (not-all-at-once
branch): the memory-derived value when `buffer_size == 0`, the explicit
`buffer_size` otherwise. -/
def totalQueueSize (bufferSize ramSize : ℕ) (frac : ℚ)
    (sampleSizes : List ℕ) : Option ℤ :=
  if bufferSize = 0 then derivedQueueCapacity ramSize frac sampleSizes
  else some (bufferSize : ℤ)

/-- The per-queue capacity chosen by `PullUpdatePush.__init__`: `ndocs`
when `update_all_at_once`, otherwise half of the total capacity. -/
def singleQueueSize (updateAllAtOnce : Bool) (ndocs bufferSize ramSize : ℕ)
    (frac : ℚ) (sampleSizes : List ℕ) : Option ℤ :=
  if updateAllAtOnce then some (ndocs : ℤ)
  else (totalQueueSize bufferSize ramSize frac sampleSizes).map
    (fun (t : ℤ) => pyInt ((t : ℚ) / 2))

/-- Per-queue capacity as the claim words it, for comparison with
`singleQueueSize`: the total capacity is the minimum of the explicit
buffer size and the memory-derived value, then halved. -/
def singleQueueSizeClaim (bufferSize ramSize : ℕ) (frac : ℚ)
    (sampleSizes : List ℕ) : Option ℤ :=
  (derivedQueueCapacity ramSize frac sampleSizes).map
    (fun (d : ℤ) => pyInt (((min (bufferSize : ℤ) d : ℤ) : ℚ) / 2))

lemma pyInt_intCast_div_two (b : ℤ) (hb : 0 ≤ b) :
    pyInt ((b : ℚ) / 2) = b / 2 := by
  have h0 : (0 : ℚ) ≤ (b : ℚ) / 2 := by
    have : (0 : ℚ) ≤ (b : ℚ) := by exact_mod_cast hb
    linarith
  rw [pyInt_eq_floor _ h0]
  have h2 : ((2 : ℕ) : ℚ) = (2 : ℚ) := by norm_num
  have := Rat.floor_intCast_div_natCast b 2
  rw [h2] at this
  simpa using this

/-- Claim C5 (amended): the total capacity is NOT the minimum of the
explicit buffer size and the derived value — a nonzero explicit buffer
size is used as-is, ignoring available memory, and only a zero buffer
size selects the memory-derived value; the total is then halved for
each queue, except in all-at-once mode where each queue gets capacity
`ndocs` un-halved. -/
theorem singleQueueSize_cases (ndocs bufferSize ramSize : ℕ) (frac : ℚ)
    (sizes : List ℕ) (h : bufferSize ≠ 0) :
    singleQueueSize false ndocs bufferSize ramSize frac sizes =
      some ((bufferSize : ℤ) / 2) ∧
    singleQueueSize true ndocs bufferSize ramSize frac sizes =
      some (ndocs : ℤ) ∧
    singleQueueSize false ndocs 0 ramSize frac sizes =
      (derivedQueueCapacity ramSize frac sizes).map
        (fun (t : ℤ) => pyInt ((t : ℚ) / 2)) := by
  refine ⟨?_, ?_, ?_⟩
  · rw [singleQueueSize, if_neg (by simp), totalQueueSize, if_neg h,
      Option.map_some']
    exact congrArg some (pyInt_intCast_div_two _ (Int.natCast_nonneg _))
  · rw [singleQueueSize, if_pos rfl]
  · rw [singleQueueSize, if_neg (by simp), totalQueueSize, if_pos rfl]

lemma pyInt_congr (q : ℚ) (n : ℤ) (h : q = (n : ℚ)) : pyInt q = n :=
  h ▸ pyInt_intCast n

/-- Witness for the C5 theorem at a concrete input. -/
theorem singleQueueSize_cases_witness :
    singleQueueSize false 100 10 4194304 1 [1048576] = some 5 ∧
    singleQueueSize true 100 10 4194304 1 [1048576] = some 100 ∧
    singleQueueSize false 100 0 4194304 1 [1048576] =
      (derivedQueueCapacity 4194304 1 [1048576]).map
        (fun (t : ℤ) => pyInt ((t : ℚ) / 2)) :=
  singleQueueSize_cases 100 10 4194304 1 [1048576] (by decide)

/-- Claim C5, counterexample to the claim as stated: with explicit
buffer size 10, 4 MiB of RAM, ram fraction 1 and one sampled document
of 1 MiB, the derived capacity is 4, so the claimed total
`min(10, 4) = 4` would give 2 per queue; the code ignores the derived
value when a buffer size is given and allocates 5 per queue. -/
theorem singleQueueSize_no_min :
    singleQueueSize false 100 10 4194304 1 [1048576] = some 5 ∧
    singleQueueSizeClaim 10 4194304 1 [1048576] = some 2 ∧
    (some (5 : ℤ) : Option ℤ) ≠ some 2 := by
  have hd : derivedQueueCapacity 4194304 1 [1048576] = some 4 := by
    rw [derivedQueueCapacity, if_neg (by norm_num),
      if_neg (by norm_num [min_self])]
    exact congrArg some (pyInt_congr _ 4 (by push_cast; norm_num [min_self]))
  refine ⟨?_, ?_, by decide⟩
  · rw [singleQueueSize, if_neg (by simp), totalQueueSize,
      if_neg (by norm_num), Option.map_some']
    exact congrArg some (pyInt_congr _ 5 (by push_cast; norm_num))
  · rw [singleQueueSizeClaim, hd, Option.map_some']
    refine congrArg some (pyInt_congr _ 2 ?_)
    push_cast
    norm_num [min_def]

/-- The drain loop shared by `_get_push_batch`: while the batch is
shorter than the batch size, `queue.get(timeout=1)`; a timeout (the
available items are exhausted) breaks out of the loop.  The queue
argument is the list of items that become available before a timeout
elapses; returns the batch and the remaining items. -/
def drainLoop (batchSize : ℕ) : List Rec → List Rec → List Rec × List Rec
  | batch, [] => (batch, [])
  | batch, d :: rest =>
    if batch.length < batchSize then drainLoop batchSize (batch ++ [d]) rest
    else (batch, d :: rest)

/-- `PullUpdatePush._get_push_batch`: when no push batch size is
configured yet, take exactly 10 sample records with a list
comprehension of `queue.get(timeout=1)` calls that has NO exception
handler — a timeout with fewer than 10 items available propagates
`Empty` (modelled `none`) — compute the push batch size from the
sample (`none` on a zero-size sample), and use the sample as the start
of the batch; then drain until the batch size is reached, breaking on
timeout.  Returns the batch, the resulting push batch size, and the
remaining queue. -/
def getPushBatch (targetChunkMB maxChunkSize : ℕ) (sz : Rec → ℕ)
    (pushBatchSize : Option ℕ) (queue : List Rec) :
    Option (List Rec × ℕ × List Rec) :=
  match pushBatchSize with
  | some bs => some ((drainLoop bs [] queue).1, bs, (drainLoop bs [] queue).2)
  | none =>
    if queue.length < 10 then none
    else
      match getOptimalBatchSize targetChunkMB maxChunkSize
          ((queue.take 10).map sz) with
      | none => none
      | some bs =>
        some ((drainLoop bs (queue.take 10) (queue.drop 10)).1, bs,
          (drainLoop bs (queue.take 10) (queue.drop 10)).2)

lemma drainLoop_eq (bs : ℕ) :
    ∀ (q batch : List Rec), drainLoop bs batch q =
      (batch ++ q.take (bs - batch.length), q.drop (bs - batch.length)) := by
  intro q
  induction q with
  | nil => intro batch; simp [drainLoop]
  | cons d rest ih =>
    intro batch
    by_cases hlt : batch.length < bs
    · have hsub : bs - batch.length = (bs - (batch.length + 1)) + 1 := by
        omega
      simp only [drainLoop, if_pos hlt]
      rw [ih (batch ++ [d])]
      simp only [List.length_append, List.length_cons, List.length_nil,
        Nat.zero_add, hsub, List.take_succ_cons, List.drop_succ_cons]
      simp
    · have hz : bs - batch.length = 0 := by omega
      simp [drainLoop, hlt, hz]

/-- Claim C4 (amended): with an explicit push batch size, the drain
takes up to that many records and a timeout simply ends the batch
early (never an error); with no explicit size, provided at least 10
records become available, the first batch starts with the 10-record
sample and is completed to the freshly computed batch size.  (The
sampling itself, however, takes exactly 10 records or raises — see the
counterexample.) -/
theorem getPushBatch_spec (t m : ℕ) (sz : Rec → ℕ) (queue : List Rec) :
    (∀ bs, getPushBatch t m sz (some bs) queue =
      some (queue.take bs, bs, queue.drop bs)) ∧
    (10 ≤ queue.length → ∀ bs,
      getOptimalBatchSize t m ((queue.take 10).map sz) = some bs →
      getPushBatch t m sz none queue =
        some (queue.take 10 ++ (queue.drop 10).take (bs - 10), bs,
          (queue.drop 10).drop (bs - 10))) := by
  constructor
  · intro bs
    rw [getPushBatch]
    rw [drainLoop_eq bs queue []]
    simp
  · intro hq bs hbs
    rw [getPushBatch, if_neg (by omega), hbs]
    show some ((drainLoop bs (queue.take 10) (queue.drop 10)).1, bs,
      (drainLoop bs (queue.take 10) (queue.drop 10)).2) = _
    rw [drainLoop_eq bs (queue.drop 10) (queue.take 10)]
    have hlen : (queue.take 10).length = 10 := by
      rw [List.length_take]
      omega
    rw [hlen]

/-- Witness for the C4 theorem at a concrete input: an explicit batch
size of 3 against a 2-element queue yields the short 2-element batch
with no error. -/
theorem getPushBatch_spec_witness :
    getPushBatch 20 3000 (fun _ => 100) (some 3)
        [[("_id", "1")], [("_id", "2")]] =
      some (([[("_id", "1")], [("_id", "2")]] : List Rec).take 3, 3,
        ([[("_id", "1")], [("_id", "2")]] : List Rec).drop 3) :=
  (getPushBatch_spec 20 3000 (fun _ => 100)
    [[("_id", "1")], [("_id", "2")]]).1 3

/-- Claim C4, counterexample to the claim as stated: with no explicit
push batch size and only 5 records available before the per-item
timeout, the sampling list comprehension propagates the `Empty`
exception (`none`) instead of ending the drain early with a short
5-record batch. -/
theorem getPushBatch_raises_short_sample :
    getPushBatch 20 3000 (fun _ => 100) none
      [[("_id", "1")], [("_id", "2")], [("_id", "3")], [("_id", "4")],
        [("_id", "5")]] = none ∧
    ([[("_id", "1")], [("_id", "2")], [("_id", "3")], [("_id", "4")],
      [("_id", "5")]] : List Rec) ≠ [] := by
  exact ⟨rfl, by decide⟩

/-- Whether a record's `_id` is among the reported failed identifiers
(`document["_id"] in failed_ids`); `false` is never reached by the code
on records lacking `_id` — those raise instead. -/
def idFailed (failedIds : List String) (d : Rec) : Bool :=
  ((getId d).map failedIds.contains).getD false

/-- The list comprehension of `_handle_failed_documents`:
`[document for document in batch if document["_id"] in failed_ids]`,
`none` when some record lacks `_id` (KeyError). -/
def filterFailed (failedIds : List String) : List Rec → Option (List Rec)
  | [] => some []
  | d :: rest =>
    match getId d with
    | none => none
    | some i =>
      match filterFailed failedIds rest with
      | none => none
      | some tail =>
        some (if failedIds.contains i then d :: tail else tail)

/-- `PullUpdatePush._handle_failed_documents`, over the identifiers of
the failures reported by the bulk-update response: when no failures are
reported, nothing is re-enqueued and `ndocs` is unchanged; otherwise
`ndocs` is incremented by the length of the REPORTED failure list, and
the records of the batch whose `_id` is among the reported identifiers
are re-enqueued and returned. -/
def handleFailedDocuments (reported : List String) (batch : List Rec) :
    Option (List Rec × ℕ) :=
  if reported.isEmpty then some ([], 0)
  else (filterFailed reported batch).map (fun rq => (rq, reported.length))

/-- `_push` then advances the pushed counter by
`len(batch) - len(failed_documents)`, where `failed_documents` is the
list returned by `_handle_failed_documents`. -/
def pushIncrement (batch requeued : List Rec) : ℕ :=
  batch.length - requeued.length

lemma filterFailed_eq (reported : List String) :
    ∀ (batch : List Rec), (∀ d ∈ batch, (getId d).isSome) →
      filterFailed reported batch = some (batch.filter (idFailed reported)) := by
  intro batch
  induction batch with
  | nil => intro _; rfl
  | cons d rest ih =>
    intro hids
    obtain ⟨i, hi⟩ := Option.isSome_iff_exists.1 (hids d (by simp))
    have htail := ih (fun x hx => hids x (by simp [hx]))
    simp only [filterFailed, hi, htail]
    by_cases hc : reported.contains i
    · simp [List.filter_cons, idFailed, hi, hc]
    · simp [List.filter_cons, idFailed, hi, hc]

/-- Claim C3 (amended): on a reported non-empty failure set, the
handler re-enqueues exactly the records of the batch whose `_id` is
among the reported failed identifiers, increments `ndocs` by the
number of REPORTED failures, and the pushed counter then advances by
the batch length minus the number of RE-ENQUEUED records — which
equals the batch length minus the reported count only when each
reported identifier matches exactly one batch record. -/
theorem handleFailedDocuments_spec (reported : List String)
    (batch : List Rec) (hids : ∀ d ∈ batch, (getId d).isSome)
    (hne : reported ≠ []) :
    handleFailedDocuments reported batch =
      some (batch.filter (idFailed reported), reported.length) ∧
    pushIncrement batch (batch.filter (idFailed reported)) =
      batch.length - (batch.filter (idFailed reported)).length := by
  refine ⟨?_, rfl⟩
  rw [handleFailedDocuments, if_neg (by simpa using hne),
    filterFailed_eq reported batch hids, Option.map_some']

/-- Witness for the C3 theorem at a concrete input. -/
theorem handleFailedDocuments_spec_witness :
    handleFailedDocuments ["a"] [[("_id", "a")], [("_id", "b")]] =
      some (([[("_id", "a")], [("_id", "b")]] : List Rec).filter
        (idFailed ["a"]), 1) ∧
    pushIncrement [[("_id", "a")], [("_id", "b")]]
        (([[("_id", "a")], [("_id", "b")]] : List Rec).filter
          (idFailed ["a"])) =
      2 - (([[("_id", "a")], [("_id", "b")]] : List Rec).filter
        (idFailed ["a"])).length :=
  handleFailedDocuments_spec ["a"] [[("_id", "a")], [("_id", "b")]]
    (by decide) (by decide)

/-- Claim C3, counterexample to the claim as stated: a response
reporting one failed identifier `z` that does not occur in the batch
re-enqueues nothing, increments `ndocs` by 1, and the pushed counter
advances by `1 - 0 = 1` — not by
`batch length - reported count = 1 - 1 = 0` as the claim has it (and
the retried identifier never reappears, yet the completion threshold
grew). -/
theorem handleFailedDocuments_count_mismatch :
    handleFailedDocuments ["z"] [[("_id", "a")]] = some ([], 1) ∧
    pushIncrement [[("_id", "a")]] [] = 1 ∧
    ([[("_id", "a")]] : List Rec).length - ["z"].length = 0 ∧
    (1 : ℕ) ≠ 0 := by
  exact ⟨by decide, rfl, rfl, by decide⟩

/-- The observable actions of `PullUpdatePush.run` and the worker
start-up of `_run_worker_threads`: initialise the three progress bars,
start the puller, start the updater pool, start the pusher pool —
unless `ndocs <= 0`, in which case `run` returns at once. -/
inductive RunStep where
  | initBars : RunStep
  | startPull : RunStep
  | startUpdater : RunStep
  | startPusher : RunStep
deriving DecidableEq

/-- `PullUpdatePush.run`: the sequence of actions performed, empty when
`ndocs <= 0`. -/
def runSteps (ndocs : ℤ) (updateWorkers pushWorkers : ℕ) : List RunStep :=
  if ndocs ≤ 0 then []
  else
    RunStep.initBars :: RunStep.startPull ::
      (List.replicate updateWorkers RunStep.startUpdater ++
        List.replicate pushWorkers RunStep.startPusher)

/-- Claim C9: with a zero or negative total expected count, `run`
returns immediately — no progress bar is initialised and no worker is
created or started. -/
theorem run_noop_on_empty (ndocs : ℤ) (uw pw : ℕ) (h : ndocs ≤ 0) :
    runSteps ndocs uw pw = [] := by
  rw [runSteps, if_pos h]

/-- Witness for the C9 theorem at a concrete input. -/
theorem run_noop_on_empty_witness : runSteps (-2) 3 4 = [] :=
  run_noop_on_empty (-2) 3 4 (by decide)

/-- The attributes set by `PullUpdatePush.__init__` that the worker
loops later read. -/
structure InitState where
  ndocs : ℕ
  pullBatchSize : ℕ
  updateBatchSize : ℕ
  pushBatchSize : Option ℕ
  timeout : ℤ
  updateWorkers : ℕ
  pushWorkers : ℕ
  funcLocked : Bool
  queueSize : ℤ
deriving DecidableEq

/-- `PullUpdatePush.__init__`: clamps `update_batch_size` to `ndocs`
with `min` (never rejecting it), overrides it with `ndocs` in
all-at-once mode, overwrites `pull_batch_size` with the sampled
optimal batch size (the incoming `min(pull_batch_size, ndocs)` at line
72 is dead, so the argument is unused here exactly as in the source),
defaults the stored timeout to 30, forces a single locked update
worker when the transform is not multithread-safe, and sizes the two
queues.  The only failure paths are the ZeroDivisionErrors of the
sizing helpers (`none`); no argument validation of any kind occurs. -/
def initPUP (targetChunkMB maxChunkSize ndocs pullBatchSize
    updateBatchSize : ℕ) (pushBatchSize : Option ℕ)
    (multithreadedUpdate : Bool) (updateWorkers pushWorkers bufferSize : ℕ)
    (timeout : Option ℤ) (ramSize : ℕ) (frac : ℚ) (updateAllAtOnce : Bool)
    (sampleSizes : List ℕ) : Option InitState :=
  match getOptimalBatchSize targetChunkMB maxChunkSize sampleSizes,
      singleQueueSize updateAllAtOnce ndocs bufferSize ramSize frac
        sampleSizes with
  | some pbs, some qs =>
    some
      { ndocs := ndocs
        pullBatchSize := pbs
        updateBatchSize :=
          if updateAllAtOnce then ndocs else min updateBatchSize ndocs
        pushBatchSize := pushBatchSize
        timeout := timeout.getD 30
        updateWorkers := if multithreadedUpdate then updateWorkers else 1
        pushWorkers := pushWorkers
        funcLocked := !multithreadedUpdate
        queueSize := qs }
  | _, _ => none

lemma derivedQueueCapacity_isSome (ramSize : ℕ) (frac : ℚ)
    (sizes : List ℕ) (h : sizes.sum ≠ 0) :
    ∃ d, derivedQueueCapacity ramSize frac sizes = some d := by
  have hlen : sizes.length ≠ 0 := by
    intro h0
    rw [List.length_eq_zero] at h0
    subst h0
    simp at h
  have havg : (0 : ℚ) < (sizes.sum : ℚ) / (sizes.length : ℚ) := by
    apply div_pos
    · exact_mod_cast Nat.pos_of_ne_zero h
    · exact_mod_cast Nat.pos_of_ne_zero hlen
  have hmin : (0 : ℚ) < min ((sizes.sum : ℚ) / (sizes.length : ℚ)) (2 ^ 20) :=
    lt_min havg (by norm_num)
  rw [derivedQueueCapacity, if_neg hlen, if_neg (ne_of_gt hmin)]
  exact ⟨_, rfl⟩

lemma singleQueueSize_isSome (updateAllAtOnce : Bool)
    (ndocs bufferSize ramSize : ℕ) (frac : ℚ) (sizes : List ℕ)
    (h : sizes.sum ≠ 0) :
    ∃ q, singleQueueSize updateAllAtOnce ndocs bufferSize ramSize frac
      sizes = some q := by
  cases updateAllAtOnce with
  | true => exact ⟨ndocs, by rw [singleQueueSize, if_pos rfl]⟩
  | false =>
    rw [singleQueueSize, if_neg (by simp), totalQueueSize]
    by_cases hb : bufferSize = 0
    · obtain ⟨d, hd⟩ := derivedQueueCapacity_isSome ramSize frac sizes h
      rw [if_pos hb, hd, Option.map_some']
      exact ⟨_, rfl⟩
    · rw [if_neg hb, Option.map_some']
      exact ⟨_, rfl⟩

/-- Claim C8 (amended): run construction performs NO eager
configuration validation.  Whatever the ram fraction (even outside
`[0, 1]`) and however the size parameters conflict, `__init__`
succeeds whenever the sampled documents have nonzero total size; an
update batch size larger than the record count is silently clamped by
`min`, not rejected. -/
theorem initPUP_no_validation (targetChunkMB maxChunkSize ndocs
    pullBatchSize updateBatchSize : ℕ) (pushBatchSize : Option ℕ)
    (multithreadedUpdate : Bool) (updateWorkers pushWorkers bufferSize : ℕ)
    (timeout : Option ℤ) (ramSize : ℕ) (frac : ℚ) (updateAllAtOnce : Bool)
    (sampleSizes : List ℕ) (h : sampleSizes.sum ≠ 0) :
    ∃ s, initPUP targetChunkMB maxChunkSize ndocs pullBatchSize
        updateBatchSize pushBatchSize multithreadedUpdate updateWorkers
        pushWorkers bufferSize timeout ramSize frac updateAllAtOnce
        sampleSizes = some s ∧
      s.updateBatchSize =
        (if updateAllAtOnce then ndocs else min updateBatchSize ndocs) := by
  obtain ⟨bs, hbs, _⟩ := (getOptimalBatchSize_le_max targetChunkMB
    maxChunkSize sampleSizes).1 h
  obtain ⟨q, hq⟩ := singleQueueSize_isSome updateAllAtOnce ndocs bufferSize
    ramSize frac sampleSizes h
  refine ⟨{ ndocs := ndocs
            pullBatchSize := bs
            updateBatchSize :=
              if updateAllAtOnce then ndocs else min updateBatchSize ndocs
            pushBatchSize := pushBatchSize
            timeout := timeout.getD 30
            updateWorkers :=
              if multithreadedUpdate then updateWorkers else 1
            pushWorkers := pushWorkers
            funcLocked := !multithreadedUpdate
            queueSize := q }, ?_, rfl⟩
  rw [initPUP, hbs, hq]

/-- Witness for the C8 theorem at a concrete input with an invalid ram
fraction. -/
theorem initPUP_no_validation_witness :
    ∃ s, initPUP 20 3000 5 1000 1000 none true 2 2 10 none 0 2 false
        [100] = some s ∧
      s.updateBatchSize = (if false then 5 else min 1000 5) :=
  initPUP_no_validation 20 3000 5 1000 1000 none true 2 2 10 none 0 2
    false [100] (by decide)

/-- Claim C8, counterexample to the claim as stated: a configuration
with ram fraction `2 ∉ [0, 1]` and batch sizes `1000` exceeding the
record count `5` is NOT rejected at construction — `__init__` succeeds
(with the oversized batch size silently clamped to 5), so no
configuration error is detected before the workers start. -/
theorem initPUP_accepts_bad_config :
    initPUP 20 3000 5 1000 1000 none true 2 2 10 none 0 2 false [100] =
      some
        { ndocs := 5
          pullBatchSize := 3000
          updateBatchSize := 5
          pushBatchSize := none
          timeout := 30
          updateWorkers := 2
          pushWorkers := 2
          funcLocked := false
          queueSize := 5 } ∧
    ¬ ((2 : ℚ) ≤ 1) ∧ (5 : ℕ) < 1000 := by
  have h1 : getOptimalBatchSize 20 3000 [100] = some 3000 := by decide
  have h2 : singleQueueSize false 5 10 0 2 [100] = some 5 := by
    rw [singleQueueSize, if_neg (by simp), totalQueueSize,
      if_neg (by norm_num), Option.map_some']
    exact congrArg some (pyInt_congr _ 5 (by push_cast; norm_num))
  refine ⟨?_, by norm_num, by norm_num⟩
  rw [initPUP, h1, h2]
  decide

/-- Everything downstream code reads from the constructed state — every
attribute except the stored `timeout`, which no method ever reads
(`_get_update_batch` hardcodes `timeout = None` and `_get_push_batch`
hardcodes `timeout = 1`). -/
def observables (s : InitState) :
    ℕ × ℕ × ℕ × Option ℕ × ℕ × ℕ × Bool × ℤ :=
  (s.ndocs, s.pullBatchSize, s.updateBatchSize, s.pushBatchSize,
    s.updateWorkers, s.pushWorkers, s.funcLocked, s.queueSize)

/-- Claim C10: the `timeout` constructor argument is dead — it is
stored and never read, so two constructions differing only in the
timeout argument agree on every observable attribute. -/
theorem initPUP_timeout_unobservable (targetChunkMB maxChunkSize ndocs
    pullBatchSize updateBatchSize : ℕ) (pushBatchSize : Option ℕ)
    (multithreadedUpdate : Bool) (updateWorkers pushWorkers bufferSize : ℕ)
    (ramSize : ℕ) (frac : ℚ) (updateAllAtOnce : Bool)
    (sampleSizes : List ℕ) (t₁ t₂ : Option ℤ) :
    (initPUP targetChunkMB maxChunkSize ndocs pullBatchSize
        updateBatchSize pushBatchSize multithreadedUpdate updateWorkers
        pushWorkers bufferSize t₁ ramSize frac updateAllAtOnce
        sampleSizes).map observables =
      (initPUP targetChunkMB maxChunkSize ndocs pullBatchSize
        updateBatchSize pushBatchSize multithreadedUpdate updateWorkers
        pushWorkers bufferSize t₂ ramSize frac updateAllAtOnce
        sampleSizes).map observables := by
  rw [initPUP, initPUP]
  cases getOptimalBatchSize targetChunkMB maxChunkSize sampleSizes with
  | none => rfl
  | some pbs =>
    cases singleQueueSize updateAllAtOnce ndocs bufferSize ramSize frac
        sampleSizes with
    | none => rfl
    | some qs => rfl

/-- `PullUpdatePush._get_update_batch`: loops while `update_all_at_once`
or the intake queue is non-empty; breaks once the batch has reached the
batch size; `queue.get(timeout=None)` blocks — in all-at-once mode with
an empty queue and nothing ever arriving again this blocks forever,
modelled `none`.  The queue argument is the stream of records that will
ever pass through the intake queue; returns the batch and the rest. -/
def collectUpdateBatch (updateAllAtOnce : Bool) (batchSize : ℕ) :
    List Rec → List Rec → Option (List Rec × List Rec)
  | batch, [] =>
    if updateAllAtOnce then
      (if batchSize ≤ batch.length then some (batch, []) else none)
    else some (batch, [])
  | batch, d :: rest =>
    if batchSize ≤ batch.length then some (batch, d :: rest)
    else collectUpdateBatch updateAllAtOnce batchSize (batch ++ [d]) rest

/-- One iteration of `_update`: if the updated count is still below
`ndocs`, collect a batch, snapshot its key sets, apply the transform
`f`, postprocess against the snapshots, enqueue, and advance the
updated count by the length of the enqueued batch; `recur` continues
the loop.  The returned list collects the batches handed to `f`. -/
def updateWorkerStep (f : List Rec → List Rec) (updateAllAtOnce : Bool)
    (batchSize ndocs : ℕ)
    (recur : ℕ → List Rec → Option (List (List Rec)))
    (n : ℕ) (queue : List Rec) : Option (List (List Rec)) :=
  if n < ndocs then
    match collectUpdateBatch updateAllAtOnce batchSize [] queue with
    | none => none
    | some (batch, rest) =>
      match postprocess (f batch) (batch.map recKeys) with
      | none => none
      | some outBatch =>
        match recur (n + outBatch.length) rest with
        | none => none
        | some batches => some (batch :: batches)
  else some []

/-- The `while self.update_bar.n < self.ndocs` loop of `_update` for
one worker, fuel-bounded; `none` when the worker blocks forever, hits
an index error, or the fuel runs out. -/
def updateWorkerLoop (f : List Rec → List Rec) (updateAllAtOnce : Bool)
    (batchSize ndocs : ℕ) :
    ℕ → ℕ → List Rec → Option (List (List Rec))
  | 0, _, _ => none
  | fuel + 1, n, queue =>
    updateWorkerStep f updateAllAtOnce batchSize ndocs
      (updateWorkerLoop f updateAllAtOnce batchSize ndocs fuel) n queue

lemma collectUpdateBatch_all (batchSize : ℕ) :
    ∀ (queue batch : List Rec), batch.length + queue.length = batchSize →
      collectUpdateBatch true batchSize batch queue =
        some (batch ++ queue, []) := by
  intro queue
  induction queue with
  | nil =>
    intro batch hb
    have hle : batchSize ≤ batch.length := by
      simp only [List.length_nil] at hb
      omega
    simp [collectUpdateBatch, hle]
  | cons d rest ih =>
    intro batch hb
    have hlt : ¬ batchSize ≤ batch.length := by
      simp only [List.length_cons] at hb
      omega
    rw [show collectUpdateBatch true batchSize batch (d :: rest) =
        collectUpdateBatch true batchSize (batch ++ [d]) rest from by
      simp [collectUpdateBatch, hlt]]
    rw [ih (batch ++ [d]) (by
      simp only [List.length_append, List.length_cons, List.length_nil,
        List.length_cons] at hb ⊢
      omega)]
    simp

/-- A successful `postprocess` under the length side condition (the
`if` branch of the definition, shared by several proofs). -/
lemma postprocess_eq (b : List Rec) (ks : List (List String))
    (h : b.length ≤ ks.length) :
    postprocess b ks = some (List.zipWith postprocessRec ks b) := by
  rw [postprocess, if_pos h]

lemma updateWorkerLoop_single (f : List Rec → List Rec) (N : ℕ)
    (stream : List Rec) (k : ℕ) (hpos : 0 < N)
    (hlen : stream.length = N) (hf : (f stream).length = stream.length) :
    updateWorkerLoop f true N N (k + 2) 0 stream = some [stream] := by
  have hcol : collectUpdateBatch true N [] stream = some (stream, []) := by
    have := collectUpdateBatch_all N stream [] (by simpa using hlen)
    simpa using this
  have hkeys : (f stream).length ≤ (stream.map recKeys).length := by
    simp [hf]
  have hpp := postprocess_eq (f stream) (stream.map recKeys) hkeys
  have houtlen :
      (List.zipWith postprocessRec (stream.map recKeys) (f stream)).length
        = N := by
    rw [List.length_zipWith, List.length_map, hf, hlen]
    omega
  have e2 : updateWorkerLoop f true N N (k + 1) (0 + N) [] = some [] := by
    have e : updateWorkerLoop f true N N (k + 1) (0 + N) [] =
        updateWorkerStep f true N N (updateWorkerLoop f true N N k)
          (0 + N) [] := rfl
    rw [e, updateWorkerStep, if_neg (by omega)]
  have e1 : updateWorkerLoop f true N N (k + 2) 0 stream =
      updateWorkerStep f true N N (updateWorkerLoop f true N N (k + 1))
        0 stream := rfl
  rw [e1, updateWorkerStep, if_pos hpos, hcol]
  show (match postprocess (f stream) (stream.map recKeys) with
    | none => none
    | some outBatch =>
      match updateWorkerLoop f true N N (k + 1) (0 + outBatch.length) []
          with
      | none => none
      | some batches => some (stream :: batches)) = some [stream]
  rw [hpp]
  show (match updateWorkerLoop f true N N (k + 1)
      (0 + (List.zipWith postprocessRec (stream.map recKeys)
        (f stream)).length) [] with
    | none => none
    | some batches => some (stream :: batches)) = some [stream]
  rw [houtlen, e2]

/-- Claim C6: in all-at-once mode `__init__` sets the update batch size
to the full record count, and an updater run over a stream of exactly
that many records hands the transform exactly one batch — the whole
stream — and terminates; no shorter batch is ever passed to the
transform. -/
theorem all_at_once_single_batch (targetChunkMB maxChunkSize ndocs
    pullBatchSize updateBatchSize : ℕ) (pushBatchSize : Option ℕ)
    (multithreadedUpdate : Bool) (updateWorkers pushWorkers bufferSize : ℕ)
    (timeout : Option ℤ) (ramSize : ℕ) (frac : ℚ) (sampleSizes : List ℕ)
    (s : InitState)
    (hinit : initPUP targetChunkMB maxChunkSize ndocs pullBatchSize
      updateBatchSize pushBatchSize multithreadedUpdate updateWorkers
      pushWorkers bufferSize timeout ramSize frac true sampleSizes =
      some s)
    (stream : List Rec) (f : List Rec → List Rec)
    (hlen : stream.length = s.ndocs) (hpos : 0 < s.ndocs)
    (hf : (f stream).length = stream.length)
    (fuel : ℕ) (hfuel : 2 ≤ fuel) :
    s.updateBatchSize = s.ndocs ∧
    updateWorkerLoop f true s.updateBatchSize s.ndocs fuel 0 stream =
      some [stream] := by
  have hubs : s.updateBatchSize = s.ndocs := by
    rw [initPUP] at hinit
    rcases hopt : getOptimalBatchSize targetChunkMB maxChunkSize
        sampleSizes with _ | pbs <;> rw [hopt] at hinit
    · exact absurd hinit (by simp)
    · rcases hq : singleQueueSize true ndocs bufferSize ramSize frac
          sampleSizes with _ | qs <;> rw [hq] at hinit
      · exact absurd hinit (by simp)
      · rw [Option.some.injEq] at hinit
        rw [← hinit]
        simp
  obtain ⟨k, rfl⟩ : ∃ k, fuel = k + 2 := ⟨fuel - 2, by omega⟩
  exact ⟨hubs, by
    rw [hubs]
    exact updateWorkerLoop_single f s.ndocs stream k hpos hlen hf⟩

/-- Witness for the C6 theorem at a concrete input: three records,
identity transform, one batch of size three. -/
theorem all_at_once_single_batch_witness :
    ({ ndocs := 3, pullBatchSize := 3000, updateBatchSize := 3,
       pushBatchSize := none, timeout := 30, updateWorkers := 2,
       pushWorkers := 2, funcLocked := false,
       queueSize := 3 } : InitState).updateBatchSize = 3 ∧
    updateWorkerLoop (fun b => b) true 3 3 2 0
        [[("_id", "a")], [("_id", "b")], [("_id", "c")]] =
      some [[[("_id", "a")], [("_id", "b")], [("_id", "c")]]] :=
  all_at_once_single_batch 20 3000 3 128 128 none true 2 2 0 none 0 0
    [100]
    { ndocs := 3, pullBatchSize := 3000, updateBatchSize := 3,
      pushBatchSize := none, timeout := 30, updateWorkers := 2,
      pushWorkers := 2, funcLocked := false, queueSize := 3 }
    (by decide)
    [[("_id", "a")], [("_id", "b")], [("_id", "c")]] (fun b => b)
    (by decide) (by decide) rfl 2 (by decide)

end OpsRun
